import Mathlib

/-
Shallow embedding of the RAG subsystem of the repository
(backend/app/services/rag.py and backend/app/routers/chat.py):
the text chunker, the embedding service, the ingest orchestrator and
the chat-layer context assembly, together with theorems checking the
specification claims against these definitions.

Python strings are modelled as `List Char`; machine floats only occur as
opaque vector entries (`Float`), never computed with.  External
collaborators (the embedding provider, the content store, the fallback
context builder) are parameters of the definitions, as the spec treats
them as opaque interfaces.
-/

namespace RagSpec

/-- Abbreviation turning a string literal into the `List Char` the model works on. -/
def lc (s : String) : List Char := s.data

/-- Characters removed by Python `str.strip()` (ASCII fragment; the repository
only ever strips ASCII whitespace). -/
def pyIsSpace (c : Char) : Bool :=
  c = ' ' || c = '\t' || c = '\n' || c = '\r' || c = '\x0b' || c = '\x0c'

/-- Python `s.strip()`: drop leading and trailing whitespace. -/
def pyStrip (s : List Char) : List Char :=
  ((s.dropWhile pyIsSpace).reverse.dropWhile pyIsSpace).reverse

/-- Fuel-indexed worker for Python `s.split(sep)` with a nonempty separator.
The fuel is always instantiated with `s.length`, which suffices because every
step consumes at least one character. -/
def pySplitF (sep : List Char) : Nat → List Char → List Char → List (List Char)
  | _, acc, [] => [acc.reverse]
  | 0, acc, s => [acc.reverse ++ s]
  | fuel + 1, acc, c :: rest =>
    if sep.isPrefixOf (c :: rest) then
      acc.reverse :: pySplitF sep fuel [] (rest.drop (sep.length - 1))
    else
      pySplitF sep fuel (c :: acc) rest

/-- Python `s.split(sep)` for a nonempty separator `sep`: split on each
non-overlapping occurrence, left to right, keeping empty pieces. -/
def pySplit (sep s : List Char) : List (List Char) :=
  pySplitF sep s.length [] s

/-- `TextChunker._estimate_tokens`: `len(text) // 4`. -/
def estimate_tokens (s : List Char) : Nat := s.length / 4

/-- Fuel-indexed worker for `TextChunker._split_by_size`; the stride is
`chunk_size - chunk_overlap` and the fuel is the text length. -/
def splitBySizeF (C step : Nat) : Nat → List Char → List (List Char)
  | 0, _ => []
  | fuel + 1, s =>
    if s = [] then [] else s.take C :: splitBySizeF C step fuel (s.drop step)

/-- `TextChunker._split_by_size`: slices of `chunk_size` characters taken at
stride `chunk_size - chunk_overlap`.  (In Python a zero stride, `O = C`,
raises `ValueError`, and a negative stride, `O > C`, yields no slices; this
model returns `[]` in both degenerate cases.  All theorems that reach this
function assume `O < C`.) -/
def split_by_size (C O : Nat) (s : List Char) : List (List Char) :=
  if O < C then splitBySizeF C (C - O) s.length s else []

/-- The overlap text prepended by `TextChunker._add_overlap`:
`prev[-O:] if len(prev) > O else prev` (with `O ≥ 1` at every use site). -/
def overlapTextOf (O : Nat) (prev : List Char) : List Char :=
  if O < prev.length then prev.drop (prev.length - O) else prev

/-- Inner loop of `TextChunker._add_overlap` over the chunks after the first. -/
def addOverlapAux (O : Nat) : List Char → List (List Char) → List (List Char)
  | _, [] => []
  | prev, c :: cs =>
    (if 0 < O then overlapTextOf O prev ++ ' ' :: c else c) :: addOverlapAux O c cs

/-- `TextChunker._add_overlap`: every chunk after the first is prefixed with
the trailing overlap of its predecessor, joined by one space. -/
def add_overlap (O : Nat) (chunks : List (List Char)) : List (List Char) :=
  if chunks.length ≤ 1 then chunks
  else
    match chunks with
    | [] => []
    | c :: cs => c :: addOverlapAux O c cs

/-- One iteration of the accumulation loop inside `TextChunker._recursive_split`,
with the recursive splitter over the remaining separators passed as `recur`.
State is `(chunks, current_chunk)`. -/
def accumStep (C : Nat) (sep : List Char) (recur : List Char → List (List Char))
    (acc : List (List Char) × List Char) (split : List Char) :
    List (List Char) × List Char :=
  if (if acc.2 = [] then split else acc.2 ++ sep ++ split).length ≤ C then
    (acc.1, if acc.2 = [] then split else acc.2 ++ sep ++ split)
  else if C < split.length then
    ((if acc.2 = [] then acc.1 else acc.1 ++ [acc.2]) ++ (recur split).dropLast,
      (recur split).getLast?.getD [])
  else ((if acc.2 = [] then acc.1 else acc.1 ++ [acc.2]), split)

/-- Close the accumulation loop: append a pending nonempty `current_chunk`. -/
def appendCurrent (acc : List (List Char) × List Char) : List (List Char) :=
  acc.1 ++ (if acc.2 = [] then [] else [acc.2])

/-- The accumulation loop of `TextChunker._recursive_split` over the pieces of
`text.split(sep)`, returning the chunk list built just before the final
`_add_overlap` call of that level (appending a pending nonempty
`current_chunk`). -/
def buildChunksWith (C : Nat) (sep : List Char)
    (recur : List Char → List (List Char)) (text : List Char) :
    List (List Char) :=
  appendCurrent ((pySplit sep text).foldl (accumStep C sep recur) ([], []))

/-- Fuel-indexed `TextChunker._recursive_split`.  The fuel is always
instantiated with `separators.length + 1`, which suffices because every
recursive call drops the first separator. -/
def rsplitF (C O : Nat) : Nat → List (List Char) → List Char → List (List Char)
  | 0, _, _ => []
  | _ + 1, [], text => split_by_size C O text
  | fuel + 1, sep :: rest, text =>
    if sep = [] then split_by_size C O text
    else add_overlap O (buildChunksWith C sep (fun s => rsplitF C O fuel rest s) text)

/-- The `TextChunker` configuration: `chunk_size`, `chunk_overlap` and the
separator priority list. -/
structure TextChunker where
  chunk_size : Nat
  chunk_overlap : Nat
  separators : List (List Char)

/-- The default separator priority of `TextChunker.__init__`. -/
def defaultSeparators : List (List Char) :=
  [['\n', '\n'], ['\n'], ['.', ' '], [' '], []]

/-- `TextChunker._recursive_split` at the instance separators. -/
def recursive_split (ch : TextChunker) (text : List Char) : List (List Char) :=
  rsplitF ch.chunk_size ch.chunk_overlap (ch.separators.length + 1) ch.separators text

/-- The segment sequence of `_recursive_split` just before its own (final,
top-level) `_add_overlap` pass.  Because `_add_overlap` also ran inside every
nested recursive call, these segments can already contain overlap text. -/
def preOverlapSegments (ch : TextChunker) (text : List Char) : List (List Char) :=
  match ch.separators with
  | [] => split_by_size ch.chunk_size ch.chunk_overlap text
  | sep :: rest =>
    if sep = [] then split_by_size ch.chunk_size ch.chunk_overlap text
    else
      buildChunksWith ch.chunk_size sep
        (fun s => rsplitF ch.chunk_size ch.chunk_overlap (rest.length + 1) rest s) text

/-- One produced chunk of `TextChunker.split_text`. -/
structure Chunk where
  chunk_index : Nat
  content : List Char
  token_count : Nat
deriving DecidableEq

/-- `TextChunker.split_text`: strip, recursively split, then keep the chunks
that are nonempty after trimming, numbered by their `enumerate` index over the
segment sequence (indices of dropped whitespace-only segments are consumed). -/
def split_text (ch : TextChunker) (text : List Char) : List Chunk :=
  if pyStrip text = [] then []
  else
    ((recursive_split ch (pyStrip text)).enum).filterMap fun p =>
      if pyStrip p.2 = [] then none
      else some ⟨p.1, pyStrip p.2, estimate_tokens p.2⟩

/-- Modelled from the spec words (for comparison with the code): segmentation
with NO interleaved overlap injection, i.e. the same recursion as
`_recursive_split` but without any `_add_overlap` call.  The spec asserts that
the chunker output equals `add_overlap` applied once, as a post-processing
pass, to this sequence. -/
def rawSegmentsF (C O : Nat) : Nat → List (List Char) → List Char → List (List Char)
  | 0, _, _ => []
  | _ + 1, [], text => split_by_size C O text
  | fuel + 1, sep :: rest, text =>
    if sep = [] then split_by_size C O text
    else buildChunksWith C sep (fun s => rawSegmentsF C O fuel rest s) text

/-- Modelled from the spec words: the overlap-free segment sequence of a
chunker configuration (see `rawSegmentsF`). -/
def rawSegments (ch : TextChunker) (text : List Char) : List (List Char) :=
  rawSegmentsF ch.chunk_size ch.chunk_overlap (ch.separators.length + 1) ch.separators text

/-- The indivisible pieces of a text: what remains after splitting by every
nonempty separator of the priority list. -/
def atomicPieces (seps : List (List Char)) (t : List Char) : List (List Char) :=
  seps.foldl (fun pieces sep => if sep = [] then pieces else (pieces.map (pySplit sep)).flatten) [t]

/-- The last `n` characters of a list (all of it when it is shorter). -/
def lastChars (n : Nat) (l : List Char) : List Char := l.drop (l.length - n)

/-- Number of nonempty separators in a priority list. -/
def countNE (seps : List (List Char)) : Nat :=
  (seps.filter (fun s => !s.isEmpty)).length

/- ----------------------------------------------------------------- -/
/- EmbeddingService                                                   -/
/- ----------------------------------------------------------------- -/

/-- The two `task_type` tags used with the provider. -/
inductive TaskType where
  | retrieval_document : TaskType
  | retrieval_query : TaskType
deriving DecidableEq

/-- One call handed to the external embedding provider
(`genai.embed_content`): the content actually transmitted and the task tag. -/
structure EmbedCall where
  content : List Char
  task_type : TaskType
deriving DecidableEq

/-- `EmbeddingService.EMBEDDING_DIM`. -/
def EMBEDDING_DIM : Nat := 768

/-- One chunk record as written to the `source_chunks` table by
`RAGService.process_source`. -/
structure ChunkRecord where
  source_id : List Char
  chunk_index : Nat
  content : List Char
  embedding : List Float
  token_count : Nat

/-- An external action performed against the provider or the content store,
recorded in program order. -/
inductive Action where
  | embed : EmbedCall → Action
  | insert : List ChunkRecord → Action

/-- The batches of the `insert` actions of a trace, in order. -/
def insertBatches (acts : List Action) : List (List ChunkRecord) :=
  acts.filterMap fun a => match a with
    | Action.insert b => some b
    | Action.embed _ => none

/-- `EmbeddingService.generate_embedding`: empty or whitespace-only text
short-circuits to the zero vector with no provider call; otherwise the text is
silently truncated to its first 10,000 characters and embedded with the
`retrieval_document` task type.  The provider is a parameter that may fail;
the second component records the provider calls made. -/
def generate_embedding {ε : Type} (provider : EmbedCall → Except ε (List Float))
    (text : List Char) : Except ε (List Float) × List Action :=
  if pyStrip text = [] then (Except.ok (List.replicate EMBEDDING_DIM (0.0 : Float)), [])
  else
    (provider ⟨text.take 10000, TaskType.retrieval_document⟩,
      [Action.embed ⟨text.take 10000, TaskType.retrieval_document⟩])

/-- `EmbeddingService.generate_query_embedding`: same short-circuit for blank
text, but NO truncation — the full query is passed to the provider with the
`retrieval_query` task type. -/
def generate_query_embedding {ε : Type} (provider : EmbedCall → Except ε (List Float))
    (query : List Char) : Except ε (List Float) × List Action :=
  if pyStrip query = [] then (Except.ok (List.replicate EMBEDDING_DIM (0.0 : Float)), [])
  else
    (provider ⟨query, TaskType.retrieval_query⟩,
      [Action.embed ⟨query, TaskType.retrieval_query⟩])

/-- `EmbeddingService.generate_embeddings_batch`: sequential per-item calls;
the first failure propagates immediately (later items are not attempted). -/
def generate_embeddings_batch {ε : Type} (provider : EmbedCall → Except ε (List Float)) :
    List (List Char) → Except ε (List (List Float)) × List Action
  | [] => (Except.ok [], [])
  | t :: ts =>
    match generate_embedding provider t with
    | (Except.error e, acts) => (Except.error e, acts)
    | (Except.ok v, acts) =>
      match generate_embeddings_batch provider ts with
      | (Except.error e, acts2) => (Except.error e, acts ++ acts2)
      | (Except.ok vs, acts2) => (Except.ok (v :: vs), acts ++ acts2)

/- ----------------------------------------------------------------- -/
/- RAGService                                                         -/
/- ----------------------------------------------------------------- -/

/-- The chunker held by `RAGService.__init__`:
`TextChunker(chunk_size=1000, chunk_overlap=200)` with default separators. -/
def ragDefaultChunker : TextChunker := ⟨1000, 200, defaultSeparators⟩

/-- Fuel-indexed slicing of a record list into batches of `size`. -/
def pyBatchesF {α : Type} (size : Nat) : Nat → List α → List (List α)
  | 0, _ => []
  | fuel + 1, l =>
    if l.isEmpty then [] else l.take size :: pyBatchesF size fuel (l.drop size)

/-- The slices `records[i:i+size]` for `i in range(0, len(records), size)`. -/
def pyBatches {α : Type} (size : Nat) (l : List α) : List (List α) :=
  pyBatchesF size l.length l

/-- The paired chunk+embedding records built by `RAGService.process_source`:
`{"source_id", "chunk_index", "content", "embedding", "token_count"}` per
chunk, in chunk order. -/
def chunkRecordsOf (source_id : List Char) (chunks : List Chunk)
    (embs : List (List Float)) : List ChunkRecord :=
  List.zipWith
    (fun (c : Chunk) emb => ChunkRecord.mk source_id c.chunk_index c.content emb c.token_count)
    chunks embs

/-- `RAGService.process_source`: chunk the content, embed every chunk (in
chunk order, before any store write), pair chunks with embeddings and insert
the records in sequential batches of 50.  Returns the record count, together
with the ordered trace of external actions. -/
def process_source {ε : Type} (provider : EmbedCall → Except ε (List Float))
    (source_id : List Char) (content : List Char) : Except ε Nat × List Action :=
  if (split_text ragDefaultChunker content).isEmpty then (Except.ok 0, [])
  else
    match generate_embeddings_batch provider
        ((split_text ragDefaultChunker content).map Chunk.content) with
    | (Except.error e, acts) => (Except.error e, acts)
    | (Except.ok embs, acts) =>
      (Except.ok (chunkRecordsOf source_id (split_text ragDefaultChunker content) embs).length,
        acts ++ (pyBatches 50 (chunkRecordsOf source_id (split_text ragDefaultChunker content) embs)).map
          Action.insert)

/-- One ranked row returned by the `match_source_chunks` similarity search. -/
structure ChunkHit where
  source_id : List Char
  content : List Char
  similarity : Option Float

/-- `RAGService.search`: embed the query in query mode, call the store search
(`rpc`, an opaque collaborator returning ranked rows or raising), and coerce a
missing/falsy result set to the empty list (`result.data or []`). -/
def rag_search {ε : Type} (provider : EmbedCall → Except ε (List Float))
    (query : List Char) (rpc : List Float → Except ε (Option (List ChunkHit))) :
    Except ε (List ChunkHit) :=
  match (generate_query_embedding provider query).1 with
  | Except.error e => Except.error e
  | Except.ok qe =>
    match rpc qe with
    | Except.error e => Except.error e
    | Except.ok d => Except.ok (d.getD [])

/- ----------------------------------------------------------------- -/
/- Chat router: get_rag_context                                       -/
/- ----------------------------------------------------------------- -/

/-- A row of the `sources` table as used by `get_rag_context`. -/
structure SourceRec where
  id : List Char
  name : List Char
deriving DecidableEq

/-- The dict `{s["id"]: s for s in rows}.get(sid)`: the LAST row with the
given id wins. -/
def sources_dict (rows : List SourceRec) (sid : List Char) : Option SourceRec :=
  rows.reverse.find? (fun s => s.id == sid)

/-- `sources.get(chunk["source_id"], {}).get("name", "Unknown")`. -/
def chunkName (rows : List SourceRec) (c : ChunkHit) : List Char :=
  match sources_dict rows c.source_id with
  | some s => s.name
  | none => lc "Unknown"

/-- Decimal digits of a natural number (Python string interpolation of `i`). -/
def natChars (n : Nat) : List Char := (Nat.repr n).data

/-- One attributed context block
`f"[{i}] Source: {name} (relevance: {similarity:.2f})\n{content}\n"`; the
two-decimal float formatting is the opaque parameter `fmt`. -/
def renderBlock (fmt : Float → List Char) (rows : List SourceRec)
    (i : Nat) (c : ChunkHit) : List Char :=
  lc "[" ++ natChars i ++ lc "] Source: " ++ chunkName rows c
    ++ lc " (relevance: " ++ fmt (c.similarity.getD (0.0 : Float)) ++ lc ")\n"
    ++ c.content ++ lc "\n"

/-- `list(set(c["source_id"] for c in chunks))`: the distinct source ids in
the iteration order of a Python set, which is the opaque parameter
`setOrder`. -/
def ragIds (setOrder : List (List Char) → List (List Char))
    (chunks : List ChunkHit) : List (List Char) :=
  setOrder (chunks.map ChunkHit.source_id)

/-- The source rows returned by the batch lookup over the distinct ids. -/
def ragRows (lookup : List (List Char) → List SourceRec)
    (setOrder : List (List Char) → List (List Char))
    (chunks : List ChunkHit) : List SourceRec :=
  lookup (ragIds setOrder chunks)

/-- The `source_names` loop of `get_rag_context`: append each chunk source
name on first appearance (the `seen_sources` set is the second component). -/
def ragNames (rows : List SourceRec) (chunks : List ChunkHit) : List (List Char) :=
  (chunks.foldl
    (fun (acc : List (List Char) × List (List Char)) c =>
      if chunkName rows c ∈ acc.2 then acc
      else (acc.1 ++ [chunkName rows c], acc.2 ++ [chunkName rows c]))
    ([], [])).1

/-- `sources_list`: one record per distinct id, in set-iteration order, with
an `{"id": sid, "name": "Unknown"}` placeholder for ids the lookup did not
return. -/
def ragSourcesList (rows : List SourceRec) (ids : List (List Char)) : List SourceRec :=
  ids.map (fun sid => (sources_dict rows sid).getD ⟨sid, lc "Unknown"⟩)

/-- The success branch of `get_rag_context` (lines 99-123): de-duplicate the
source ids through a Python set, batch-look-up the source rows, render the
numbered context blocks joined with blank lines, collect first-appearance
source names, and list the source records in set-iteration order. -/
def assembleChunks (lookup : List (List Char) → List SourceRec)
    (setOrder : List (List Char) → List (List Char)) (fmt : Float → List Char)
    (chunks : List ChunkHit) : List Char × List SourceRec × List (List Char) :=
  (List.intercalate (lc "\n\n")
      (chunks.enum.map (fun p => renderBlock fmt (ragRows lookup setOrder chunks) (p.1 + 1) p.2)),
    ragSourcesList (ragRows lookup setOrder chunks) (ragIds setOrder chunks),
    ragNames (ragRows lookup setOrder chunks) chunks)

/-- `get_rag_context`: run the RAG search; on ANY raised error, or an empty
result set, return the output of the caller-supplied fallback context builder
`fb` for the same notebook and source filter (the Boolean records which branch
ran: `true` means the fallback was used). -/
def get_rag_context {ε : Type} (provider : EmbedCall → Except ε (List Float))
    (query : List Char) (rpc : List Float → Except ε (Option (List ChunkHit)))
    (fb : List Char → Option (List (List Char)) → List Char × List SourceRec × List (List Char))
    (lookup : List (List Char) → List SourceRec)
    (setOrder : List (List Char) → List (List Char)) (fmt : Float → List Char)
    (nb : List Char) (sids : Option (List (List Char))) :
    (List Char × List SourceRec × List (List Char)) × Bool :=
  match rag_search provider query rpc with
  | Except.error _ => (fb nb sids, true)
  | Except.ok chunks =>
    if chunks.isEmpty then (fb nb sids, true)
    else (assembleChunks lookup setOrder fmt chunks, false)

/-- Modelled from the spec words: the first-appearance de-duplication of a
list (what the spec means by "de-duplicated, first-appearance-ordered"). -/
def specFirstDedup (l : List (List Char)) : List (List Char) :=
  l.foldl (fun acc x => if x ∈ acc then acc else acc ++ [x]) []

/- ----------------------------------------------------------------- -/
/- Helper lemmas                                                      -/
/- ----------------------------------------------------------------- -/

theorem mem_of_getLast?_eq_some {α : Type} {a : α} :
    ∀ {l : List α}, l.getLast? = some a → a ∈ l
  | [], h => by simp at h
  | [x], h => by
      simp only [List.getLast?_singleton, Option.some.injEq] at h
      simp [h]
  | x :: y :: t, h => by
      rw [List.getLast?_cons_cons] at h
      exact List.mem_cons_of_mem _ (mem_of_getLast?_eq_some h)

theorem overlapTextOf_length_le (O : Nat) (p : List Char) :
    (overlapTextOf O p).length ≤ O := by
  unfold overlapTextOf
  split <;> rename_i h
  · simp only [List.length_drop]; omega
  · omega

theorem overlapTextOf_eq_lastChars (O : Nat) (p : List Char) :
    overlapTextOf O p = lastChars (min O p.length) p := by
  unfold overlapTextOf lastChars
  split <;> rename_i h
  · congr 1; omega
  · have h0 : p.length - min O p.length = 0 := by omega
    rw [h0, List.drop_zero]

theorem add_overlap_cons (O : Nat) (c : List Char) (cs : List (List Char)) :
    add_overlap O (c :: cs) = c :: addOverlapAux O c cs := by
  unfold add_overlap
  split <;> rename_i h
  · match cs with
    | [] => rfl
    | _ :: _ => simp at h
  · rfl

theorem addOverlapAux_getElem? (O : Nat) :
    ∀ (cs : List (List Char)) (prev : List Char) (i : Nat), i < cs.length → 0 < O →
      (addOverlapAux O prev cs)[i]? =
        some (overlapTextOf O ((prev :: cs).getD i []) ++ ' ' :: cs.getD i [])
  | c :: cs, prev, 0, _, hO => by
      simp [addOverlapAux, if_pos hO, List.getD]
  | c :: cs, prev, i + 1, hi, hO => by
      have ih := addOverlapAux_getElem? O cs c i (by simpa using hi) hO
      simp only [addOverlapAux, List.getElem?_cons_succ]
      rw [ih]
      simp [List.getD]

theorem add_overlap_getElem? (O : Nat) (l : List (List Char)) (i : Nat)
    (hi : i + 1 < l.length) (hO : 0 < O) :
    (add_overlap O l)[i + 1]? =
      some (overlapTextOf O (l.getD i []) ++ ' ' :: l.getD (i + 1) []) := by
  match l with
  | [] => simp at hi
  | c :: cs =>
    rw [add_overlap_cons]
    simp only [List.getElem?_cons_succ]
    have hcs : i < cs.length := by simpa using hi
    rw [addOverlapAux_getElem? O cs c i hcs hO]
    simp [List.getD]

theorem splitBySizeF_length_le (C step : Nat) :
    ∀ (fuel : Nat) (s : List Char), ∀ c ∈ splitBySizeF C step fuel s, c.length ≤ C
  | 0, s => by simp [splitBySizeF]
  | fuel + 1, s => by
      intro c hc
      rw [splitBySizeF] at hc
      split at hc
      · simp at hc
      · rcases List.mem_cons.mp hc with h | h
        · subst h; rw [List.length_take]; omega
        · exact splitBySizeF_length_le C step fuel _ c h

theorem split_by_size_length_le (C O : Nat) (s : List Char) :
    ∀ c ∈ split_by_size C O s, c.length ≤ C := by
  intro c hc
  unfold split_by_size at hc
  split at hc
  · exact splitBySizeF_length_le C (C - O) s.length s c hc
  · simp at hc

theorem addOverlapAux_length_le (O B : Nat) :
    ∀ (cs : List (List Char)) (prev : List Char), prev.length ≤ B →
      (∀ x ∈ cs, x.length ≤ B) → ∀ c ∈ addOverlapAux O prev cs, c.length ≤ B + (O + 1)
  | [], _, _, _ => by simp [addOverlapAux]
  | c :: cs, prev, hp, hcs => by
      intro x hx
      rw [addOverlapAux] at hx
      rcases List.mem_cons.mp hx with h | h
      · subst h
        split <;> rename_i hO
        · have h1 := overlapTextOf_length_le O prev
          have h2 := hcs c (by simp)
          simp only [List.length_append, List.length_cons]
          omega
        · have := hcs c (by simp); omega
      · exact addOverlapAux_length_le O B cs c (hcs c (by simp))
          (fun y hy => hcs y (by simp [hy])) x h

theorem add_overlap_length_le (O B : Nat) (l : List (List Char))
    (h : ∀ x ∈ l, x.length ≤ B) : ∀ c ∈ add_overlap O l, c.length ≤ B + (O + 1) := by
  match l with
  | [] => simp [add_overlap]
  | c :: cs =>
    rw [add_overlap_cons]
    intro x hx
    rcases List.mem_cons.mp hx with h1 | h1
    · subst h1; have := h x (by simp); omega
    · exact addOverlapAux_length_le O B cs c (h c (by simp))
        (fun y hy => h y (by simp [hy])) x h1

theorem accumStep_bound (C : Nat) (sep : List Char)
    (recur : List Char → List (List Char)) (B : Nat) (hC : C ≤ B)
    (hrec : ∀ s, ∀ c ∈ recur s, c.length ≤ B)
    (acc : List (List Char) × List Char) (s : List Char)
    (h1 : ∀ x ∈ acc.1, x.length ≤ B) (h2 : acc.2.length ≤ B) :
    (∀ x ∈ (accumStep C sep recur acc s).1, x.length ≤ B) ∧
      (accumStep C sep recur acc s).2.length ≤ B := by
  have hlast : ((recur s).getLast?.getD []).length ≤ B := by
    cases hl : (recur s).getLast? with
    | none => simp
    | some a => simpa using hrec s a (mem_of_getLast?_eq_some hl)
  unfold accumStep
  split <;> rename_i hcur
  · split <;> rename_i hpot
    · exact ⟨h1, le_trans hpot hC⟩
    · split <;> rename_i hbig
      · refine ⟨?_, hlast⟩
        intro x hx
        rcases List.mem_append.mp hx with hx | hx
        · exact h1 x hx
        · exact hrec s x (List.dropLast_subset _ hx)
      · exact ⟨h1, by omega⟩
  · split <;> rename_i hpot
    · exact ⟨h1, le_trans hpot hC⟩
    · have hchunks2 : ∀ x ∈ acc.1 ++ [acc.2], x.length ≤ B := by
        intro x hx
        rcases List.mem_append.mp hx with hx | hx
        · exact h1 x hx
        · simp only [List.mem_singleton] at hx; subst hx; exact h2
      split <;> rename_i hbig
      · refine ⟨?_, hlast⟩
        intro x hx
        rcases List.mem_append.mp hx with hx | hx
        · exact hchunks2 x hx
        · exact hrec s x (List.dropLast_subset _ hx)
      · exact ⟨hchunks2, show s.length ≤ B by omega⟩

theorem foldl_accumStep_bound (C : Nat) (sep : List Char)
    (recur : List Char → List (List Char)) (B : Nat) (hC : C ≤ B)
    (hrec : ∀ s, ∀ c ∈ recur s, c.length ≤ B) :
    ∀ (splits : List (List Char)) (acc : List (List Char) × List Char),
      (∀ x ∈ acc.1, x.length ≤ B) → acc.2.length ≤ B →
      (∀ x ∈ (List.foldl (accumStep C sep recur) acc splits).1, x.length ≤ B) ∧
        (List.foldl (accumStep C sep recur) acc splits).2.length ≤ B
  | [], acc, h1, h2 => ⟨h1, h2⟩
  | s :: ss, acc, h1, h2 => by
      rw [List.foldl_cons]
      have hstep := accumStep_bound C sep recur B hC hrec acc s h1 h2
      exact foldl_accumStep_bound C sep recur B hC hrec ss _ hstep.1 hstep.2

theorem buildChunksWith_length_le (C : Nat) (sep : List Char)
    (recur : List Char → List (List Char)) (B : Nat) (hC : C ≤ B)
    (hrec : ∀ s, ∀ c ∈ recur s, c.length ≤ B) (text : List Char) :
    ∀ x ∈ buildChunksWith C sep recur text, x.length ≤ B := by
  unfold buildChunksWith appendCurrent
  have h := foldl_accumStep_bound C sep recur B hC hrec (pySplit sep text) ([], [])
    (by simp) (by simp)
  intro x hx
  rcases List.mem_append.mp hx with hx | hx
  · exact h.1 x hx
  · split at hx
    · simp at hx
    · simp only [List.mem_singleton] at hx; subst hx; exact h.2

theorem countNE_cons_ne (sep : List Char) (rest : List (List Char)) (h : sep ≠ []) :
    countNE (sep :: rest) = countNE rest + 1 := by
  have hs : sep.isEmpty = false := by
    cases sep with
    | nil => exact absurd rfl h
    | cons a l => rfl
  simp [countNE, List.filter_cons, hs]

theorem rsplitF_length_le (C O : Nat) :
    ∀ (fuel : Nat) (seps : List (List Char)) (text : List Char),
      ∀ c ∈ rsplitF C O fuel seps text, c.length ≤ C + (O + 1) * countNE seps
  | 0, seps, text => by simp [rsplitF]
  | fuel + 1, [], text => by
      intro c hc
      rw [rsplitF] at hc
      exact le_trans (split_by_size_length_le C O text c hc) (Nat.le_add_right _ _)
  | fuel + 1, sep :: rest, text => by
      intro c hc
      rw [rsplitF] at hc
      split at hc
      · exact le_trans (split_by_size_length_le C O text c hc) (Nat.le_add_right _ _)
      · rename_i hne
        have hB := buildChunksWith_length_le C sep (fun s => rsplitF C O fuel rest s)
          (C + (O + 1) * countNE rest) (Nat.le_add_right _ _)
          (fun s c hc => rsplitF_length_le C O fuel rest s c hc) text
        have hc2 := add_overlap_length_le O (C + (O + 1) * countNE rest) _ hB c hc
        rw [countNE_cons_ne sep rest hne, Nat.mul_succ]
        omega

theorem recursive_split_eq (ch : TextChunker) (text sep : List Char)
    (rest : List (List Char)) (hsep : ch.separators = sep :: rest) (hne : sep ≠ []) :
    recursive_split ch text = add_overlap ch.chunk_overlap (preOverlapSegments ch text) := by
  unfold recursive_split preOverlapSegments
  rw [hsep]
  simp only [List.length_cons]
  rw [rsplitF, if_neg hne, if_neg hne]

/- ----------------------------------------------------------------- -/
/- Claim C1                                                           -/
/- ----------------------------------------------------------------- -/

/-- C1 is false as stated: on this input (chunk_size 10, overlap 3, default
separators, 2 chunks) the returned sequence is NOT the overlap-free segment
sequence with a single overlap post-processing pass.  `_add_overlap` also ran
inside the nested recursive call, so the second returned chunk starts with the
overlap prefix twice, and the injected overlap took part in the later
accumulation, influencing split boundaries. -/
theorem c1_single_pass_cex :
    rawSegments ⟨10, 3, defaultSeparators⟩ (lc "aaaaaaaaaa\nbbbbbbbbbb")
        = [lc "aaaaaaaaaa", lc "bbbbbbbbbb"] ∧
    add_overlap 3 (rawSegments ⟨10, 3, defaultSeparators⟩ (lc "aaaaaaaaaa\nbbbbbbbbbb"))
        = [lc "aaaaaaaaaa", lc "aaa bbbbbbbbbb"] ∧
    recursive_split ⟨10, 3, defaultSeparators⟩ (lc "aaaaaaaaaa\nbbbbbbbbbb")
        = [lc "aaaaaaaaaa", lc "aaa aaa bbbbbbbbbb"] ∧
    recursive_split ⟨10, 3, defaultSeparators⟩ (lc "aaaaaaaaaa\nbbbbbbbbbb")
        ≠ add_overlap 3 (rawSegments ⟨10, 3, defaultSeparators⟩ (lc "aaaaaaaaaa\nbbbbbbbbbb")) :=
  ⟨by decide, by decide, by decide, by decide⟩

/-- C1 (amended): for a chunker whose separator list starts with a nonempty
separator and whose overlap is positive, the chunk at every position i+1 of
the sequence returned by `_recursive_split` equals the last
min(overlap, len(pre[i])) characters of pre[i], followed by a single space,
followed by pre[i+1] — where pre is the segment sequence immediately before
the FINAL overlap pass.  Because `_add_overlap` also runs at every nested
recursion level, pre[i+1] is not in general the raw split content, and the
injection is not a single post-processing pass over an overlap-free
segmentation. -/
theorem c1_overlap_formula_amended (C O : Nat) (sep : List Char)
    (rest : List (List Char)) (hne : sep ≠ []) (hO : 0 < O) (text : List Char)
    (i : Nat) (hi : i + 1 < (preOverlapSegments ⟨C, O, sep :: rest⟩ text).length) :
    (recursive_split ⟨C, O, sep :: rest⟩ text)[i + 1]? =
      some (lastChars
          (min O ((preOverlapSegments ⟨C, O, sep :: rest⟩ text).getD i []).length)
          ((preOverlapSegments ⟨C, O, sep :: rest⟩ text).getD i [])
        ++ ' ' :: (preOverlapSegments ⟨C, O, sep :: rest⟩ text).getD (i + 1) []) := by
  rw [recursive_split_eq ⟨C, O, sep :: rest⟩ text sep rest rfl hne,
    add_overlap_getElem? O _ i hi hO, overlapTextOf_eq_lastChars]

/-- Witness for C1 (amended) at chunk_size 10, overlap 3, i = 0. -/
theorem c1_overlap_formula_amended_w :
    (lc "\n\n" ≠ [] ∧ 0 < 3 ∧
      0 + 1 < (preOverlapSegments ⟨10, 3, defaultSeparators⟩
        (lc "aaaaaaaaaa\nbbbbbbbbbb")).length) ∧
    (recursive_split ⟨10, 3, defaultSeparators⟩ (lc "aaaaaaaaaa\nbbbbbbbbbb"))[0 + 1]? =
      some (lastChars
          (min 3 ((preOverlapSegments ⟨10, 3, defaultSeparators⟩
            (lc "aaaaaaaaaa\nbbbbbbbbbb")).getD 0 []).length)
          ((preOverlapSegments ⟨10, 3, defaultSeparators⟩
            (lc "aaaaaaaaaa\nbbbbbbbbbb")).getD 0 [])
        ++ ' ' :: (preOverlapSegments ⟨10, 3, defaultSeparators⟩
            (lc "aaaaaaaaaa\nbbbbbbbbbb")).getD (0 + 1) []) :=
  ⟨⟨by decide, by decide, by decide⟩,
    c1_overlap_formula_amended 10 3 (lc "\n\n")
      [['\n'], ['.', ' '], [' '], []] (by decide) (by decide)
      (lc "aaaaaaaaaa\nbbbbbbbbbb") 0 (by decide)⟩

/- ----------------------------------------------------------------- -/
/- Claim C2                                                           -/
/- ----------------------------------------------------------------- -/

/-- C2 is false as stated: with chunk_size 10, overlap 3 (so C > O ≥ 0), on
this input every indivisible token has at most 10 characters, yet a chunk of
the sequence built just before the final overlap injection has 14 characters —
the nested overlap pass of the recursive call inflated it beyond chunk_size,
which is not the fixed-stride-fallback exception. -/
theorem c2_size_bound_cex :
    (atomicPieces defaultSeparators (lc "aaaaaaaaaa\nbbbbbbbbbb")).all
        (fun p => decide (p.length ≤ 10)) = true ∧
    (preOverlapSegments ⟨10, 3, defaultSeparators⟩ (lc "aaaaaaaaaa\nbbbbbbbbbb")).any
        (fun c => decide (10 < c.length)) = true :=
  ⟨by decide, by decide⟩

/-- C2 (amended): a chunk of the segment sequence before the final overlap
pass can exceed chunk_size, but by a bounded amount: its length is at most
chunk_size + (overlap + 1) * k, where k is the number of nonempty separators
below the current level (each nested level contributes at most one overlap
prefix plus one joining space; fixed-stride fallback slices alone never exceed
chunk_size). -/
theorem c2_size_bound_amended (C O : Nat) (sep : List Char)
    (rest : List (List Char)) (hne : sep ≠ []) (text : List Char) :
    ∀ c ∈ preOverlapSegments ⟨C, O, sep :: rest⟩ text,
      c.length ≤ C + (O + 1) * countNE rest := by
  simp only [preOverlapSegments, if_neg hne]
  exact buildChunksWith_length_le C sep _ _ (Nat.le_add_right _ _)
    (fun s c hc => rsplitF_length_le C O (rest.length + 1) rest s c hc) text

/-- Witness for C2 (amended): the 14-character inflated chunk of the
counterexample input satisfies the amended bound 10 + (3 + 1) * 3 = 22. -/
theorem c2_size_bound_amended_w :
    (lc "\n\n" ≠ [] ∧ lc "aaa bbbbbbbbbb" ∈
      preOverlapSegments ⟨10, 3, defaultSeparators⟩ (lc "aaaaaaaaaa\nbbbbbbbbbb")) ∧
    (lc "aaa bbbbbbbbbb").length ≤ 10 + (3 + 1) * countNE [['\n'], ['.', ' '], [' '], []] :=
  ⟨⟨by decide, by decide⟩,
    c2_size_bound_amended 10 3 (lc "\n\n") [['\n'], ['.', ' '], [' '], []]
      (by decide) (lc "aaaaaaaaaa\nbbbbbbbbbb") (lc "aaa bbbbbbbbbb") (by decide)⟩

/- ----------------------------------------------------------------- -/
/- Claim C3                                                           -/
/- ----------------------------------------------------------------- -/

/-- The chunk filter applied by `split_text` to the enumerated segments. -/
def splitTextFilter (p : Nat × List Char) : Option Chunk :=
  if pyStrip p.2 = [] then none
  else some ⟨p.1, pyStrip p.2, estimate_tokens p.2⟩

theorem split_text_eq_filterMap (ch : TextChunker) (text : List Char)
    (h : pyStrip text ≠ []) :
    split_text ch text =
      ((recursive_split ch (pyStrip text)).enum).filterMap splitTextFilter := by
  unfold split_text splitTextFilter
  rw [if_neg h]

theorem splitTextFilter_enumFrom_spec :
    ∀ (l : List (List Char)) (k : Nat) (c : Chunk),
      c ∈ (List.enumFrom k l).filterMap splitTextFilter →
      k ≤ c.chunk_index ∧ ∃ seg, l[c.chunk_index - k]? = some seg ∧
        c.content = pyStrip seg ∧ pyStrip seg ≠ []
  | [], k, c => by simp
  | s :: l, k, c => by
      intro hc
      rw [List.enumFrom_cons] at hc
      by_cases hs : pyStrip s = []
      · rw [List.filterMap_cons_none (by simp [splitTextFilter, hs])] at hc
        have ih := splitTextFilter_enumFrom_spec l (k + 1) c hc
        obtain ⟨seg, hseg, hcont, hnz⟩ := ih.2
        refine ⟨by omega, seg, ?_, hcont, hnz⟩
        have hk : c.chunk_index - k = (c.chunk_index - (k + 1)) + 1 := by omega
        rw [hk, List.getElem?_cons_succ]
        exact hseg
      · rw [List.filterMap_cons_some
          (show splitTextFilter (k, s) = some ⟨k, pyStrip s, estimate_tokens s⟩ by
            simp [splitTextFilter, hs])] at hc
        rcases List.mem_cons.mp hc with h | h
        · subst h
          exact ⟨le_refl k, s, by simp, rfl, hs⟩
        · have ih := splitTextFilter_enumFrom_spec l (k + 1) c h
          obtain ⟨seg, hseg, hcont, hnz⟩ := ih.2
          refine ⟨by omega, seg, ?_, hcont, hnz⟩
          have hk : c.chunk_index - k = (c.chunk_index - (k + 1)) + 1 := by omega
          rw [hk, List.getElem?_cons_succ]
          exact hseg

theorem splitTextFilter_enumFrom_pairwise :
    ∀ (l : List (List Char)) (k : Nat),
      List.Pairwise (· < ·)
        (((List.enumFrom k l).filterMap splitTextFilter).map Chunk.chunk_index)
  | [], k => by simp
  | s :: l, k => by
      rw [List.enumFrom_cons]
      by_cases hs : pyStrip s = []
      · rw [List.filterMap_cons_none (by simp [splitTextFilter, hs])]
        exact splitTextFilter_enumFrom_pairwise l (k + 1)
      · rw [List.filterMap_cons_some
          (show splitTextFilter (k, s) = some ⟨k, pyStrip s, estimate_tokens s⟩ by
            simp [splitTextFilter, hs])]
        rw [List.map_cons, List.pairwise_cons]
        constructor
        · intro x hx
          obtain ⟨c, hc, hcx⟩ := List.mem_map.mp hx
          have := (splitTextFilter_enumFrom_spec l (k + 1) c hc).1
          subst hcx
          show k < c.chunk_index
          omega
        · exact splitTextFilter_enumFrom_pairwise l (k + 1)

/-- C3 is false as stated: with chunk_size 1 and overlap 0 (valid parameters)
the input "a\n\n \n\nb" yields the segments ["a", " ", "b"]; the middle
whitespace-only segment is dropped but still consumes its enumerate index, so
split_text returns 2 chunks carrying chunk_index values [0, 2], not the
contiguous [0, 1]. -/
theorem c3_contiguous_cex :
    (split_text ⟨1, 0, defaultSeparators⟩ (lc "a\n\n \n\nb")).map Chunk.chunk_index
        = [0, 2] ∧
    (split_text ⟨1, 0, defaultSeparators⟩ (lc "a\n\n \n\nb")).length = 2 ∧
    [0, 2] ≠ List.range 2 :=
  ⟨by decide, by decide, by decide⟩

/-- C3 (amended): for every chunker and every text, the chunk_index values
returned by split_text are strictly increasing, and each chunk is the trimmed,
nonempty content of the segment at exactly that position of the recursive
split of the stripped text.  They need not be contiguous: whitespace-only
segments are dropped while their enumerate index is still consumed. -/
theorem c3_indices_increasing_amended (ch : TextChunker) (text : List Char) :
    List.Pairwise (· < ·) ((split_text ch text).map Chunk.chunk_index) ∧
    ∀ c ∈ split_text ch text,
      ∃ seg, (recursive_split ch (pyStrip text))[c.chunk_index]? = some seg ∧
        c.content = pyStrip seg ∧ pyStrip seg ≠ [] := by
  by_cases h : pyStrip text = []
  · unfold split_text
    rw [if_pos h]
    simp
  · rw [split_text_eq_filterMap ch text h, List.enum_eq_enumFrom]
    constructor
    · exact splitTextFilter_enumFrom_pairwise _ 0
    · intro c hc
      have hspec := splitTextFilter_enumFrom_spec _ 0 c hc
      obtain ⟨seg, hseg, hcont, hnz⟩ := hspec.2
      exact ⟨seg, by simpa using hseg, hcont, hnz⟩

/-- Witness for C3 (amended) on the counterexample input. -/
theorem c3_indices_increasing_amended_w :
    List.Pairwise (· < ·)
      ((split_text ⟨1, 0, defaultSeparators⟩ (lc "a\n\n \n\nb")).map Chunk.chunk_index) :=
  (c3_indices_increasing_amended ⟨1, 0, defaultSeparators⟩ (lc "a\n\n \n\nb")).1

/- ----------------------------------------------------------------- -/
/- Claim C4                                                           -/
/- ----------------------------------------------------------------- -/

theorem rsplitF_single (C O : Nat) (fuel : Nat) (sep : List Char)
    (rest : List (List Char)) (text : List Char) (hne : sep ≠ [])
    (hsplit : pySplit sep text = [text]) (htext : text ≠ []) (hlen : text.length ≤ C) :
    rsplitF C O (fuel + 1) (sep :: rest) text = [text] := by
  rw [rsplitF, if_neg hne]
  unfold buildChunksWith
  rw [hsplit, List.foldl_cons, List.foldl_nil]
  simp [accumStep, appendCurrent, hlen, htext, add_overlap_cons, addOverlapAux]

/-- C4 is false as stated: constructing a chunker with overlap 7 ≥
chunk_size 5 raises no error at the Chunker boundary, and splitting the text
"ab" silently returns a normal nonempty chunk sequence — the parameters are
not validated and no InvalidInput failure occurs. -/
theorem c4_fail_fast_cex :
    split_text ⟨5, 7, defaultSeparators⟩ (lc "ab") = [⟨0, lc "ab", 0⟩] ∧
    split_text ⟨5, 7, defaultSeparators⟩ (lc "ab") ≠ [] :=
  ⟨by decide, by decide⟩

/-- C4 (amended): no parameter validation exists.  For EVERY parameter pair
with chunk_size ≥ 2 — including every invalid pair with
overlap ≥ chunk_size — splitting the text "ab" silently succeeds and returns
the single-chunk sequence; an error could only arise downstream, in Python,
if the fixed-stride fallback were reached with overlap = chunk_size. -/
theorem c4_no_validation_amended (C O : Nat) (h2 : 2 ≤ C) :
    split_text ⟨C, O, defaultSeparators⟩ (lc "ab") = [⟨0, lc "ab", 0⟩] := by
  have hstrip : pyStrip (lc "ab") = lc "ab" := by decide
  have hr : recursive_split ⟨C, O, defaultSeparators⟩ (lc "ab") = [lc "ab"] := by
    unfold recursive_split
    exact rsplitF_single C O _ (lc "\n\n") [['\n'], ['.', ' '], [' '], []] (lc "ab")
      (by decide) (by decide) (by decide) h2
  unfold split_text
  rw [hstrip, if_neg (show ¬(lc "ab" = []) by decide), hr]
  decide

/-- Witness for C4 (amended) at the invalid pair chunk_size 3, overlap 5. -/
theorem c4_no_validation_amended_w :
    2 ≤ 3 ∧ split_text ⟨3, 5, defaultSeparators⟩ (lc "ab") = [⟨0, lc "ab", 0⟩] :=
  ⟨by decide, c4_no_validation_amended 3 5 (by decide)⟩

/- ----------------------------------------------------------------- -/
/- Claim C5 and Claim C9                                              -/
/- ----------------------------------------------------------------- -/

/-- A provider that always succeeds (used in closed witness statements). -/
def okProvider : EmbedCall → Except Unit (List Float) := fun _ => Except.ok []

/-- A provider that always fails (used in closed witness statements). -/
def failProvider : EmbedCall → Except Unit (List Float) := fun _ => Except.error ()

theorem pyStrip_replicate_a (n : Nat) :
    pyStrip (List.replicate n 'a') = List.replicate n 'a' := by
  have hdw : ∀ m : Nat,
      (List.replicate m 'a').dropWhile pyIsSpace = List.replicate m 'a' := by
    intro m
    cases m with
    | zero => rfl
    | succ k =>
      rw [List.replicate_succ, List.dropWhile_cons,
        if_neg (by decide : ¬(pyIsSpace 'a' = true))]
  unfold pyStrip
  rw [hdw, List.reverse_replicate, hdw, List.reverse_replicate]

/-- C5 is false as stated: a 10,001-character query is handed to the external
provider in full by generate_query_embedding — query mode performs no
truncation to the 10,000-character cap, unlike document mode. -/
theorem c5_query_truncation_cex :
    (generate_query_embedding okProvider (List.replicate 10001 'a')).2
        = [Action.embed ⟨List.replicate 10001 'a', TaskType.retrieval_query⟩] ∧
    (List.replicate 10001 'a').length = 10001 ∧
    (List.replicate 10001 'a').take 10000 ≠ List.replicate 10001 'a' := by
  have hne : pyStrip (List.replicate 10001 'a') ≠ [] := by
    rw [pyStrip_replicate_a]
    intro h
    have hlen := congrArg List.length h
    rw [List.length_replicate, List.length_nil] at hlen
    exact absurd hlen (by omega)
  refine ⟨?_, List.length_replicate 10001 'a', ?_⟩
  · unfold generate_query_embedding
    rw [if_neg hne]
  · intro h
    have hlen := congrArg List.length h
    rw [List.length_take, List.length_replicate] at hlen
    omega

/-- C5 (amended): for every non-blank text, document-mode embedding silently
passes exactly the first 10,000 characters to the provider, while query-mode
embedding passes the full text with no truncation at all. -/
theorem c5_truncation_amended {ε : Type} (provider : EmbedCall → Except ε (List Float))
    (text : List Char) (h : pyStrip text ≠ []) :
    generate_embedding provider text =
      (provider ⟨text.take 10000, TaskType.retrieval_document⟩,
        [Action.embed ⟨text.take 10000, TaskType.retrieval_document⟩]) ∧
    generate_query_embedding provider text =
      (provider ⟨text, TaskType.retrieval_query⟩,
        [Action.embed ⟨text, TaskType.retrieval_query⟩]) := by
  unfold generate_embedding generate_query_embedding
  rw [if_neg h, if_neg h]
  exact ⟨rfl, rfl⟩

/-- Witness for C5 (amended) on the text "hello". -/
theorem c5_truncation_amended_w :
    pyStrip (lc "hello") ≠ [] ∧
    (generate_embedding okProvider (lc "hello") =
      (okProvider ⟨(lc "hello").take 10000, TaskType.retrieval_document⟩,
        [Action.embed ⟨(lc "hello").take 10000, TaskType.retrieval_document⟩]) ∧
    generate_query_embedding okProvider (lc "hello") =
      (okProvider ⟨lc "hello", TaskType.retrieval_query⟩,
        [Action.embed ⟨lc "hello", TaskType.retrieval_query⟩])) :=
  ⟨by decide, c5_truncation_amended okProvider (lc "hello") (by decide)⟩

/-- C9: blank (empty or whitespace-only) text short-circuits both embedding
modes to the zero vector of dimension 768 and makes no provider call. -/
theorem c9_zero_vector {ε : Type} (provider : EmbedCall → Except ε (List Float))
    (text : List Char) (h : pyStrip text = []) :
    generate_embedding provider text
        = (Except.ok (List.replicate 768 (0.0 : Float)), []) ∧
    generate_query_embedding provider text
        = (Except.ok (List.replicate 768 (0.0 : Float)), []) := by
  unfold generate_embedding generate_query_embedding
  rw [if_pos h, if_pos h]
  exact ⟨rfl, rfl⟩

/-- Witness for C9 on the whitespace-only text " \n ". -/
theorem c9_zero_vector_w :
    pyStrip (lc " \n ") = [] ∧
    (generate_embedding okProvider (lc " \n ")
        = (Except.ok (List.replicate 768 (0.0 : Float)), []) ∧
    generate_query_embedding okProvider (lc " \n ")
        = (Except.ok (List.replicate 768 (0.0 : Float)), [])) :=
  ⟨by decide, c9_zero_vector okProvider (lc " \n ") (by decide)⟩

/- ----------------------------------------------------------------- -/
/- Claim C6                                                           -/
/- ----------------------------------------------------------------- -/

/-- C6: when the query embedding succeeds and the content-store similarity
search raises an error or returns zero rows (a missing or empty result set),
get_rag_context invokes the caller-supplied fallback context builder with the
same notebook scope and source filter and returns exactly its output, with the
fallback flag true. -/
theorem c6_fallback_law {ε : Type} (provider : EmbedCall → Except ε (List Float))
    (query : List Char) (rpc : List Float → Except ε (Option (List ChunkHit)))
    (fb : List Char → Option (List (List Char)) → List Char × List SourceRec × List (List Char))
    (lookup : List (List Char) → List SourceRec)
    (setOrder : List (List Char) → List (List Char)) (fmt : Float → List Char)
    (nb : List Char) (sids : Option (List (List Char))) (qe : List Float)
    (hq : (generate_query_embedding provider query).1 = Except.ok qe)
    (hstore : (∃ e, rpc qe = Except.error e) ∨ rpc qe = Except.ok none ∨
      rpc qe = Except.ok (some [])) :
    get_rag_context provider query rpc fb lookup setOrder fmt nb sids
      = (fb nb sids, true) := by
  have hr : rag_search provider query rpc =
      match rpc qe with
      | Except.error e => Except.error e
      | Except.ok d => Except.ok (d.getD []) := by
    unfold rag_search
    rw [hq]
  unfold get_rag_context
  rcases hstore with ⟨e, he⟩ | he | he <;> rw [hr, he] <;> rfl

/-- A store call that always raises (used in closed witness statements). -/
def failRpc : List Float → Except Unit (Option (List ChunkHit)) :=
  fun _ => Except.error ()

/-- A fixed fallback context builder output (used in closed witnesses). -/
def fbConst : List Char → Option (List (List Char)) →
    List Char × List SourceRec × List (List Char) :=
  fun _ _ => (lc "FALLBACK", [], [lc "FB"])

/-- A lookup returning no source rows (used in closed witnesses). -/
def emptyLookup : List (List Char) → List SourceRec := fun _ => []

/-- A set-iteration order equal to first-appearance order (one admissible
order of a Python set; used in closed witnesses). -/
def idSetOrder : List (List Char) → List (List Char) := specFirstDedup

/-- An opaque two-decimal float formatter stub (used in closed witnesses). -/
def constFmt : Float → List Char := fun _ => []

/-- Witness for C6 with a raising store call. -/
theorem c6_fallback_law_w :
    ((generate_query_embedding okProvider (lc "q")).1 = Except.ok [] ∧
      ((∃ e, failRpc [] = Except.error e) ∨ failRpc [] = Except.ok none ∨
        failRpc [] = Except.ok (some []))) ∧
    get_rag_context okProvider (lc "q") failRpc fbConst emptyLookup idSetOrder constFmt
        (lc "n1") none = (fbConst (lc "n1") none, true) :=
  ⟨⟨rfl, Or.inl ⟨(), rfl⟩⟩,
    c6_fallback_law okProvider (lc "q") failRpc fbConst emptyLookup idSetOrder constFmt
      (lc "n1") none [] rfl (Or.inl ⟨(), rfl⟩)⟩

/- ----------------------------------------------------------------- -/
/- Claim C10                                                          -/
/- ----------------------------------------------------------------- -/

theorem insertBatches_generate_embedding {ε : Type}
    (provider : EmbedCall → Except ε (List Float)) (t : List Char) :
    insertBatches (generate_embedding provider t).2 = [] := by
  unfold generate_embedding
  split <;> rfl

theorem insertBatches_batch {ε : Type} (provider : EmbedCall → Except ε (List Float)) :
    ∀ ts : List (List Char), insertBatches (generate_embeddings_batch provider ts).2 = []
  | [] => rfl
  | t :: ts => by
      have h1 := insertBatches_generate_embedding provider t
      have h2 := insertBatches_batch provider ts
      rw [generate_embeddings_batch]
      cases hg : generate_embedding provider t with
      | mk res acts =>
        rw [hg] at h1
        cases res with
        | error e => exact h1
        | ok v =>
          cases hb : generate_embeddings_batch provider ts with
          | mk res2 acts2 =>
            rw [hb] at h2
            cases res2 with
            | error e2 =>
              show insertBatches (acts ++ acts2) = []
              unfold insertBatches at h1 h2 ⊢
              rw [List.filterMap_append, h1, h2]
              rfl
            | ok vs =>
              show insertBatches (acts ++ acts2) = []
              unfold insertBatches at h1 h2 ⊢
              rw [List.filterMap_append, h1, h2]
              rfl

/-- C10: inside process_source every chunk embedding is generated before the
first store insert is issued, so an embedding failure propagates with the
content store untouched: an erroring run performs no insert action at all. -/
theorem c10_no_partial_write {ε : Type} (provider : EmbedCall → Except ε (List Float))
    (sid content : List Char) (e : ε)
    (h : (process_source provider sid content).1 = Except.error e) :
    insertBatches (process_source provider sid content).2 = [] := by
  unfold process_source at h ⊢
  by_cases hc : (split_text ragDefaultChunker content).isEmpty
  · rw [if_pos hc] at h
    exact Except.noConfusion h
  · rw [if_neg hc] at h ⊢
    cases hb : generate_embeddings_batch provider
        ((split_text ragDefaultChunker content).map Chunk.content) with
    | mk res acts =>
      cases res with
      | error e2 =>
        have h2 := insertBatches_batch provider
          ((split_text ragDefaultChunker content).map Chunk.content)
        rw [hb] at h2
        exact h2
      | ok vs =>
        rw [hb] at h
        exact Except.noConfusion h

/-- Witness for C10: a failing provider on a one-chunk ingest errors out with
no insert in the trace. -/
theorem c10_no_partial_write_w :
    (process_source failProvider (lc "s1") (lc "hi")).1 = Except.error () ∧
    insertBatches (process_source failProvider (lc "s1") (lc "hi")).2 = [] :=
  ⟨rfl, c10_no_partial_write failProvider (lc "s1") (lc "hi") () rfl⟩

/- ----------------------------------------------------------------- -/
/- Claim C7                                                           -/
/- ----------------------------------------------------------------- -/

theorem generate_embedding_isOk {ε : Type} (provider : EmbedCall → Except ε (List Float))
    (hok : ∀ c, ∃ v, provider c = Except.ok v) (t : List Char) :
    ∃ v, (generate_embedding provider t).1 = Except.ok v := by
  unfold generate_embedding
  split
  · exact ⟨_, rfl⟩
  · exact hok _

theorem generate_embeddings_batch_ok {ε : Type}
    (provider : EmbedCall → Except ε (List Float))
    (hok : ∀ c, ∃ v, provider c = Except.ok v) :
    ∀ ts : List (List Char), ∃ vs acts,
      generate_embeddings_batch provider ts = (Except.ok vs, acts) ∧ vs.length = ts.length
  | [] => ⟨[], [], rfl, rfl⟩
  | t :: ts => by
      obtain ⟨v, hv⟩ := generate_embedding_isOk provider hok t
      obtain ⟨vs, acts2, hb, hlen⟩ := generate_embeddings_batch_ok provider hok ts
      rw [generate_embeddings_batch]
      cases hg : generate_embedding provider t with
      | mk res acts1 =>
        rw [hg] at hv
        cases res with
        | error e => exact Except.noConfusion hv
        | ok v2 =>
          rw [hb]
          exact ⟨v2 :: vs, acts1 ++ acts2, rfl, by simp [hlen]⟩

theorem map_zipWith_left {α β γ δ : Type} (f : α → β → γ) (g : γ → δ) (h : α → δ)
    (hfg : ∀ a b, g (f a b) = h a) :
    ∀ (l1 : List α) (l2 : List β), l1.length = l2.length →
      (List.zipWith f l1 l2).map g = l1.map h
  | [], [], _ => rfl
  | [], b :: l2, h0 => by simp at h0
  | a :: l1, [], h0 => by simp at h0
  | a :: l1, b :: l2, h0 => by
      rw [List.zipWith_cons_cons, List.map_cons, List.map_cons, hfg,
        map_zipWith_left f g h hfg l1 l2 (by simpa using h0)]

theorem pyBatchesF_flatten {α : Type} :
    ∀ (fuel : Nat) (l : List α), l.length ≤ fuel → (pyBatchesF 50 fuel l).flatten = l
  | 0, l, h => by
      have hl : l = [] := List.length_eq_zero.mp (Nat.le_zero.mp h)
      subst hl; rfl
  | fuel + 1, l, h => by
      rw [pyBatchesF]
      split <;> rename_i hl
      · rw [List.isEmpty_iff.mp hl]; rfl
      · rw [List.flatten_cons,
          pyBatchesF_flatten fuel (l.drop 50) (by rw [List.length_drop]; omega)]
        exact List.take_append_drop 50 l

theorem pyBatches_flatten {α : Type} (l : List α) : (pyBatches 50 l).flatten = l :=
  pyBatchesF_flatten l.length l (le_refl _)

theorem pyBatchesF_length {α : Type} :
    ∀ (fuel : Nat) (l : List α), l.length ≤ fuel →
      (pyBatchesF 50 fuel l).length = (l.length + 49) / 50
  | 0, l, h => by
      have hl : l = [] := List.length_eq_zero.mp (Nat.le_zero.mp h)
      subst hl; simp [pyBatchesF]
  | fuel + 1, l, h => by
      rw [pyBatchesF]
      split <;> rename_i hl
      · rw [List.isEmpty_iff.mp hl]; simp
      · rw [List.length_cons,
          pyBatchesF_length fuel (l.drop 50) (by rw [List.length_drop]; omega),
          List.length_drop]
        have hlne : l ≠ [] := fun h0 => by subst h0; simp at hl
        have hpos : 0 < l.length := List.length_pos.mpr hlne
        omega

theorem pyBatches_length {α : Type} (l : List α) :
    (pyBatches 50 l).length = (l.length + 49) / 50 :=
  pyBatchesF_length l.length l (le_refl _)

theorem pyBatchesF_sizes {α : Type} :
    ∀ (fuel : Nat) (l : List α), l.length ≤ fuel →
      (pyBatchesF 50 fuel l).map List.length =
        List.replicate (l.length / 50) 50 ++
          (if l.length % 50 = 0 then [] else [l.length % 50])
  | 0, l, h => by
      have hl : l = [] := List.length_eq_zero.mp (Nat.le_zero.mp h)
      subst hl; simp [pyBatchesF]
  | fuel + 1, l, h => by
      rw [pyBatchesF]
      split <;> rename_i hl
      · rw [List.isEmpty_iff.mp hl]; simp
      · rw [List.map_cons,
          pyBatchesF_sizes fuel (l.drop 50) (by rw [List.length_drop]; omega),
          List.length_take, List.length_drop]
        have hlne : l ≠ [] := fun h0 => by subst h0; simp at hl
        have hpos : 0 < l.length := List.length_pos.mpr hlne
        rcases Nat.lt_or_ge l.length 50 with hlt | hge
        · have h1 : (50 : Nat) ⊓ l.length = l.length := by
            rw [inf_eq_min]; omega
          have h2 : l.length - 50 = 0 := by omega
          have h3 : l.length / 50 = 0 := by omega
          have h4 : l.length % 50 = l.length := by omega
          rw [h1, h2, h3, h4, if_neg (show ¬(l.length = 0) by omega)]
          simp
        · have h1 : (50 : Nat) ⊓ l.length = 50 := by
            rw [inf_eq_min]; omega
          have h2 : l.length / 50 = (l.length - 50) / 50 + 1 := by omega
          have h3 : l.length % 50 = (l.length - 50) % 50 := by omega
          rw [h1, h2, h3, List.replicate_succ]
          simp

theorem pyBatches_sizes {α : Type} (l : List α) :
    (pyBatches 50 l).map List.length =
      List.replicate (l.length / 50) 50 ++
        (if l.length % 50 = 0 then [] else [l.length % 50]) :=
  pyBatchesF_sizes l.length l (le_refl _)

/-- C7: for an ingest whose chunking yields at least one chunk and whose
provider succeeds, the run returns the record count n (= the chunk count), the
records preserve chunk order/content/index, and the store receives exactly the
sequential 50-slices of the record list: ceil(n/50) inserts, all of size 50
except a final insert of n mod 50 records when n mod 50 is nonzero; in
particular 120 records yield insert sizes [50, 50, 20]. -/
theorem c7_batched_insert {ε : Type} (provider : EmbedCall → Except ε (List Float))
    (sid content : List Char)
    (hok : ∀ c, ∃ v, provider c = Except.ok v)
    (hne : split_text ragDefaultChunker content ≠ []) :
    ∃ records : List ChunkRecord,
      (process_source provider sid content).1 = Except.ok records.length ∧
      records.length = (split_text ragDefaultChunker content).length ∧
      records.map ChunkRecord.content = (split_text ragDefaultChunker content).map Chunk.content ∧
      records.map ChunkRecord.chunk_index
          = (split_text ragDefaultChunker content).map Chunk.chunk_index ∧
      insertBatches (process_source provider sid content).2 = pyBatches 50 records ∧
      (pyBatches 50 records).flatten = records ∧
      (pyBatches 50 records).length = (records.length + 49) / 50 ∧
      (pyBatches 50 records).map List.length =
        List.replicate (records.length / 50) 50 ++
          (if records.length % 50 = 0 then [] else [records.length % 50]) ∧
      (pyBatches 50 (List.range 120)).map List.length = [50, 50, 20] := by
  obtain ⟨vs, acts, hb, hlen⟩ := generate_embeddings_batch_ok provider hok
    ((split_text ragDefaultChunker content).map Chunk.content)
  rw [List.length_map] at hlen
  have hieq : ¬((split_text ragDefaultChunker content).isEmpty = true) := by
    rw [List.isEmpty_iff]; exact hne
  have hps : process_source provider sid content =
      (Except.ok (chunkRecordsOf sid (split_text ragDefaultChunker content) vs).length,
        acts ++ (pyBatches 50 (chunkRecordsOf sid (split_text ragDefaultChunker content) vs)).map
          Action.insert) := by
    unfold process_source
    rw [if_neg hieq, hb]
  refine ⟨chunkRecordsOf sid (split_text ragDefaultChunker content) vs,
    ?_, ?_, ?_, ?_, ?_, pyBatches_flatten _, pyBatches_length _, pyBatches_sizes _, by decide⟩
  · rw [hps]
  · rw [chunkRecordsOf, List.length_zipWith, hlen]
    simp
  · exact map_zipWith_left _ ChunkRecord.content Chunk.content (fun _ _ => rfl)
      _ vs hlen.symm
  · exact map_zipWith_left _ ChunkRecord.chunk_index Chunk.chunk_index (fun _ _ => rfl)
      _ vs hlen.symm
  · rw [hps]
    have hacts := insertBatches_batch provider
      ((split_text ragDefaultChunker content).map Chunk.content)
    rw [hb] at hacts
    unfold insertBatches at hacts ⊢
    rw [List.filterMap_append, hacts, List.filterMap_map, List.nil_append]
    have : (fun a => (match a with
        | Action.insert b => some b
        | Action.embed _ => none : Option (List ChunkRecord))) ∘ Action.insert = some := by
      funext b; rfl
    rw [this, List.filterMap_some]

/-- Witness for C7 on a one-chunk ingest with an always-succeeding provider. -/
theorem c7_batched_insert_w :
    split_text ragDefaultChunker (lc "hi") ≠ [] ∧
    ∃ records : List ChunkRecord,
      (process_source okProvider (lc "s1") (lc "hi")).1 = Except.ok records.length ∧
      records.length = (split_text ragDefaultChunker (lc "hi")).length ∧
      records.map ChunkRecord.content = (split_text ragDefaultChunker (lc "hi")).map Chunk.content ∧
      records.map ChunkRecord.chunk_index
          = (split_text ragDefaultChunker (lc "hi")).map Chunk.chunk_index ∧
      insertBatches (process_source okProvider (lc "s1") (lc "hi")).2 = pyBatches 50 records ∧
      (pyBatches 50 records).flatten = records ∧
      (pyBatches 50 records).length = (records.length + 49) / 50 ∧
      (pyBatches 50 records).map List.length =
        List.replicate (records.length / 50) 50 ++
          (if records.length % 50 = 0 then [] else [records.length % 50]) ∧
      (pyBatches 50 (List.range 120)).map List.length = [50, 50, 20] :=
  ⟨by decide, c7_batched_insert okProvider (lc "s1") (lc "hi")
    (fun c => ⟨[], rfl⟩) (by decide)⟩

/- ----------------------------------------------------------------- -/
/- Claim C8                                                           -/
/- ----------------------------------------------------------------- -/

theorem specFold_invariant :
    ∀ (l : List (List Char)) (acc : List (List Char)), acc.Nodup →
      (List.foldl (fun acc x => if x ∈ acc then acc else acc ++ [x]) acc l).Nodup ∧
      (∀ y, y ∈ List.foldl (fun acc x => if x ∈ acc then acc else acc ++ [x]) acc l ↔
        y ∈ acc ∨ y ∈ l)
  | [], acc, h => ⟨h, by simp⟩
  | x :: l, acc, h => by
      rw [List.foldl_cons]
      by_cases hx : x ∈ acc
      · rw [if_pos hx]
        obtain ⟨h1, h2⟩ := specFold_invariant l acc h
        refine ⟨h1, fun y => ?_⟩
        rw [h2 y]
        constructor
        · rintro (hy | hy)
          · exact Or.inl hy
          · exact Or.inr (List.mem_cons_of_mem _ hy)
        · rintro (hy | hy)
          · exact Or.inl hy
          · rcases List.mem_cons.mp hy with hy | hy
            · subst hy; exact Or.inl hx
            · exact Or.inr hy
      · rw [if_neg hx]
        have hnd : (acc ++ [x]).Nodup := by
          rw [List.nodup_append]
          refine ⟨h, List.nodup_singleton x, fun a ha hb => ?_⟩
          rw [List.mem_singleton] at hb
          subst hb
          exact hx ha
        obtain ⟨h1, h2⟩ := specFold_invariant l (acc ++ [x]) hnd
        refine ⟨h1, fun y => ?_⟩
        rw [h2 y]
        simp only [List.mem_append, List.mem_singleton, List.mem_cons]
        tauto

theorem specFirstDedup_admissible (l : List (List Char)) :
    (specFirstDedup l).Nodup ∧ ∀ y, y ∈ specFirstDedup l ↔ y ∈ l := by
  obtain ⟨h1, h2⟩ := specFold_invariant l [] List.nodup_nil
  refine ⟨h1, fun y => ?_⟩
  rw [specFirstDedup, h2 y]
  simp

theorem namesFold_eq_specFold (g : ChunkHit → List Char) :
    ∀ (l : List ChunkHit) (a : List (List Char)),
      (List.foldl (fun (acc : List (List Char) × List (List Char)) c =>
        if g c ∈ acc.2 then acc else (acc.1 ++ [g c], acc.2 ++ [g c])) (a, a) l).1 =
      List.foldl (fun acc x => if x ∈ acc then acc else acc ++ [x]) a (l.map g)
  | [], a => rfl
  | c :: l, a => by
      rw [List.map_cons, List.foldl_cons, List.foldl_cons]
      by_cases hg : g c ∈ a
      · rw [if_pos (show g c ∈ (Prod.mk a a).2 from hg), if_pos hg]
        exact namesFold_eq_specFold g l a
      · rw [if_neg (show g c ∉ (Prod.mk a a).2 from hg), if_neg hg]
        exact namesFold_eq_specFold g l (a ++ [g c])

theorem ragNames_eq_specFirstDedup (rows : List SourceRec) (chunks : List ChunkHit) :
    ragNames rows chunks = specFirstDedup (chunks.map (chunkName rows)) := by
  unfold ragNames specFirstDedup
  exact namesFold_eq_specFold (chunkName rows) chunks []

theorem sources_dict_getD_id (rows : List SourceRec) (sid : List Char) :
    ((sources_dict rows sid).getD ⟨sid, lc "Unknown"⟩).id = sid := by
  unfold sources_dict
  cases hf : rows.reverse.find? (fun s => s.id == sid) with
  | none => rfl
  | some s =>
      have hbeq := List.find?_some hf
      simp only [Option.getD_some]
      exact eq_of_beq hbeq

theorem ragSourcesList_map_id (rows : List SourceRec) (ids : List (List Char)) :
    (ragSourcesList rows ids).map SourceRec.id = ids := by
  unfold ragSourcesList
  rw [List.map_map]
  have hcomp : SourceRec.id ∘
      (fun sid => (sources_dict rows sid).getD ⟨sid, lc "Unknown"⟩) =
      fun sid => sid := by
    funext sid
    exact sources_dict_getD_id rows sid
  rw [hcomp]
  exact List.map_id' ids

/-- The two ranked rows of the C8 counterexample: source s2 first, s1 second
(first-appearance order is therefore [s2, s1]). -/
def cexChunks : List ChunkHit :=
  [⟨lc "s2", lc "x", none⟩, ⟨lc "s1", lc "y", none⟩]

/-- A store search returning the two C8 counterexample rows. -/
def cexRpc : List Float → Except Unit (Option (List ChunkHit)) :=
  fun _ => Except.ok (some cexChunks)

/-- The source rows known to the lookup in the C8 counterexample. -/
def cexLookup : List (List Char) → List SourceRec :=
  fun _ => [⟨lc "s1", lc "A"⟩, ⟨lc "s2", lc "B"⟩]

/-- A set-iteration order equal to REVERSED first-appearance order — an
admissible iteration order of a Python set with hash randomization. -/
def revSetOrder : List (List Char) → List (List Char) :=
  fun l => (specFirstDedup l).reverse

theorem revSetOrder_admissible :
    ∀ l, (revSetOrder l).Nodup ∧ ∀ y, y ∈ revSetOrder l ↔ y ∈ l := by
  intro l
  obtain ⟨h1, h2⟩ := specFirstDedup_admissible l
  refine ⟨by simpa [revSetOrder] using h1, fun y => ?_⟩
  rw [revSetOrder, List.mem_reverse]
  exact h2 y

/-- C8 is false as stated: contributing source records follow the iteration
order of a Python set over the source ids, not first-appearance order.  With
an admissible set order (here: reversed first-appearance order, which a hash
set may produce), the ranked results mention s2 before s1, yet the returned
records list s1 before s2 — different from the first-appearance de-duplicated
order of the result list. -/
theorem c8_records_order_cex :
    (∀ l, (revSetOrder l).Nodup ∧ ∀ y, y ∈ revSetOrder l ↔ y ∈ l) ∧
    rag_search okProvider (lc "q") cexRpc = Except.ok cexChunks ∧
    cexChunks.map ChunkHit.source_id = [lc "s2", lc "s1"] ∧
    specFirstDedup (cexChunks.map ChunkHit.source_id) = [lc "s2", lc "s1"] ∧
    ((get_rag_context okProvider (lc "q") cexRpc fbConst cexLookup revSetOrder
        constFmt (lc "n1") none).1.2.1).map SourceRec.id = [lc "s1", lc "s2"] ∧
    ((get_rag_context okProvider (lc "q") cexRpc fbConst cexLookup revSetOrder
        constFmt (lc "n1") none).1.2.1).map SourceRec.id ≠
      specFirstDedup (cexChunks.map ChunkHit.source_id) :=
  ⟨revSetOrder_admissible, rfl, by decide, by decide, by decide, by decide⟩

/-- C8 (amended): on a successful (non-fallback) search the contributing
source NAMES are de-duplicated in first-appearance order of the ranked result
list, as claimed; the contributing source RECORDS are de-duplicated (their ids
are exactly the distinct source ids of the ranked results, without
repetition), but their order is the iteration order of a Python set, which
need not be first-appearance order. -/
theorem c8_dedup_amended {ε : Type} (provider : EmbedCall → Except ε (List Float))
    (query : List Char) (rpc : List Float → Except ε (Option (List ChunkHit)))
    (fb : List Char → Option (List (List Char)) → List Char × List SourceRec × List (List Char))
    (lookup : List (List Char) → List SourceRec)
    (setOrder : List (List Char) → List (List Char)) (fmt : Float → List Char)
    (nb : List Char) (sids : Option (List (List Char))) (chunks : List ChunkHit)
    (hs : rag_search provider query rpc = Except.ok chunks)
    (hne : chunks ≠ [])
    (hso : ∀ l, (setOrder l).Nodup ∧ ∀ y, y ∈ setOrder l ↔ y ∈ l) :
    (get_rag_context provider query rpc fb lookup setOrder fmt nb sids).2 = false ∧
    (get_rag_context provider query rpc fb lookup setOrder fmt nb sids).1.2.2 =
      specFirstDedup (chunks.map (chunkName (ragRows lookup setOrder chunks))) ∧
    ((get_rag_context provider query rpc fb lookup setOrder fmt nb sids).1.2.1.map
        SourceRec.id).Nodup ∧
    (∀ y, y ∈ (get_rag_context provider query rpc fb lookup setOrder fmt nb sids).1.2.1.map
        SourceRec.id ↔ y ∈ chunks.map ChunkHit.source_id) := by
  have hcond : ¬(chunks.isEmpty = true) := by
    rw [List.isEmpty_iff]
    exact hne
  have hgr : get_rag_context provider query rpc fb lookup setOrder fmt nb sids
      = (assembleChunks lookup setOrder fmt chunks, false) := by
    unfold get_rag_context
    rw [hs]
    show (if chunks.isEmpty = true then (fb nb sids, true)
      else (assembleChunks lookup setOrder fmt chunks, false)) = _
    rw [if_neg hcond]
  rw [hgr]
  refine ⟨rfl, ?_, ?_, ?_⟩
  · exact ragNames_eq_specFirstDedup (ragRows lookup setOrder chunks) chunks
  · show ((ragSourcesList (ragRows lookup setOrder chunks)
        (ragIds setOrder chunks)).map SourceRec.id).Nodup
    rw [ragSourcesList_map_id]
    exact (hso _).1
  · intro y
    show y ∈ (ragSourcesList (ragRows lookup setOrder chunks)
        (ragIds setOrder chunks)).map SourceRec.id ↔ _
    rw [ragSourcesList_map_id]
    exact (hso (chunks.map ChunkHit.source_id)).2 y

/-- Witness for C8 (amended) with the first-appearance set order, which is
one admissible iteration order. -/
theorem c8_dedup_amended_w :
    (rag_search okProvider (lc "q") cexRpc = Except.ok cexChunks ∧
      cexChunks ≠ [] ∧
      (∀ l, (idSetOrder l).Nodup ∧ ∀ y, y ∈ idSetOrder l ↔ y ∈ l)) ∧
    ((get_rag_context okProvider (lc "q") cexRpc fbConst cexLookup idSetOrder
        constFmt (lc "n1") none).2 = false ∧
    (get_rag_context okProvider (lc "q") cexRpc fbConst cexLookup idSetOrder
        constFmt (lc "n1") none).1.2.2 =
      specFirstDedup (cexChunks.map (chunkName (ragRows cexLookup idSetOrder cexChunks))) ∧
    ((get_rag_context okProvider (lc "q") cexRpc fbConst cexLookup idSetOrder
        constFmt (lc "n1") none).1.2.1.map SourceRec.id).Nodup ∧
    (∀ y, y ∈ (get_rag_context okProvider (lc "q") cexRpc fbConst cexLookup idSetOrder
        constFmt (lc "n1") none).1.2.1.map SourceRec.id ↔
        y ∈ cexChunks.map ChunkHit.source_id)) :=
  ⟨⟨rfl, List.cons_ne_nil _ _, fun l => specFirstDedup_admissible l⟩,
    c8_dedup_amended okProvider (lc "q") cexRpc fbConst cexLookup idSetOrder constFmt
      (lc "n1") none cexChunks rfl (List.cons_ne_nil _ _)
      (fun l => specFirstDedup_admissible l)⟩

end RagSpec
